import Mathlib

/-!
# Shallow embedding of `deep-rent/tyson` (tyson.go)

The Go package navigates dynamic JSON structures parsed into
`map[string]any`.  We embed the JSON data model as an inductive type
`JValue`; a Go `map[string]any` becomes an association list
`Object := List (String × JValue)` with first-match lookup (Go maps have
unique keys, so first-match lookup agrees with map lookup on any list
that arises from a map).

Go's `float64` JSON numbers are modeled as exact rationals (every finite
double denotes a rational).  The `int64(v)` conversion of Go truncates
toward zero when the truncation is representable in `int64`; for
out-of-range inputs the Go specification makes the result
implementation-dependent, and `int64Conv` embeds the gc/amd64 behavior
(the x86 `CVTTSD2SI` "integer indefinite"), which returns the minimum
`int64` value `-2^63`.  The `float64(w)` widening is modeled as the
exact coercion `ℤ → ℚ`, which is faithful at every comparison the code
makes: for an in-range `v` with `|v| < 2^53` the truncation has
magnitude at most `2^53` and widens exactly; for an in-range `v` with
`|v| ≥ 2^53` the double `v` is an integer, the truncation equals `v`
itself and widens exactly; and for an out-of-range `v` the compared
value `-2^63` is an exact double.  Note that for every `int64` value
`w`, real `float64(w)` has magnitude at most `2^63`, so the round trip
`v == float64(int64(v))` fails on every conforming Go implementation
whenever `|v| > 2^63`; only at `v = 2^63` exactly do conforming
implementations disagree (amd64 fails, saturating conversions succeed
with `2^63 - 1`), and the theorems below assert nothing about that
point.

Go's "comma ok" results `(w, ok)` become `Option`: `some w` for
`ok = true`, `none` for `ok = false` (no caller of the package observes
the `w` payload when `ok` is false; `Map`, the only consumer, checks
`ok` first).
-/

set_option autoImplicit false

namespace Tyson

/-- A dynamic JSON value: `null`, boolean, number (float64, modeled as an
exact rational), string, array, or object (`map[string]any`, modeled as an
association list). -/
inductive JValue where
  | null : JValue
  | bool : Bool → JValue
  | num : ℚ → JValue
  | str : String → JValue
  | arr : List JValue → JValue
  | obj : List (String × JValue) → JValue

/-- `type Object map[string]any` (tyson.go line 127), modeled as an
association list with first-match lookup. -/
abbrev Object : Type := List (String × JValue)

/-- Lookup `o[k]` in a Go map, modeled as first-match association-list
lookup. -/
def lookupKey : Object → String → Option JValue
  | [], _ => none
  | (k', v) :: rest, k => if k' == k then some v else lookupKey rest k

/-- `type Mapper[S any, T any] func(v S) (w T, ok bool)` (tyson.go
line 26); the "comma ok" pair becomes an `Option`. -/
abbrev Mapper (S T : Type) : Type := S → Option T

/-- `func AsArray(v any) (w []any, ok bool) { w, ok = v.([]any); return }`
(tyson.go line 30). -/
def AsArray : Mapper JValue (List JValue) := fun v =>
  match v with
  | JValue.arr xs => some xs
  | _ => none

/-- `func AsBool(v any) (w bool, ok bool) { w, ok = v.(bool); return }`
(tyson.go line 31). -/
def AsBool : Mapper JValue Bool := fun v =>
  match v with
  | JValue.bool b => some b
  | _ => none

/-- `func AsFloat(v any) (w float64, ok bool) { w, ok = v.(float64); return }`
(tyson.go line 32). -/
def AsFloat : Mapper JValue ℚ := fun v =>
  match v with
  | JValue.num x => some x
  | _ => none

/-- Mathematical truncation toward zero of a rational: the spec's
`truncate(x)`. -/
def truncQ (q : ℚ) : ℤ := if 0 ≤ q then ⌊q⌋ else ⌈q⌉

/-- Go's `int64(v)` conversion of a `float64`: truncation toward zero
when that truncation is representable in `int64` (so the result lies in
`[-2^63, 2^63)`); for out-of-range inputs the Go specification leaves
the result implementation-dependent, embedded here as the gc/amd64
result, the minimum `int64` value. -/
def int64Conv (q : ℚ) : ℤ :=
  if truncQ q < -(2 ^ 63) ∨ 2 ^ 63 ≤ truncQ q then -(2 ^ 63) else truncQ q

/-- `func AsInt(v float64) (w int64, ok bool) { w = int64(v); return w, v == float64(w) }`
(tyson.go line 33): succeed with the `int64` conversion exactly when
widening it back recovers `v`. -/
def AsInt : Mapper ℚ ℤ := fun v =>
  if ((int64Conv v : ℚ) = v) then some (int64Conv v) else none

/-- `func AsObject(v any) (w Object, ok bool) { w, ok = v.(map[string]any); return }`
(tyson.go line 34). -/
def AsObject : Mapper JValue Object := fun v =>
  match v with
  | JValue.obj o => some o
  | _ => none

/-- `func AsString(v any) (w string, ok bool) { w, ok = v.(string); return }`
(tyson.go line 35). -/
def AsString : Mapper JValue String := fun v =>
  match v with
  | JValue.str s => some s
  | _ => none

/-- `func All[S any, T any](m Mapper[S, T]) Mapper[[]S, []T]` (tyson.go
lines 40–52): apply `m` to every element left to right, failing on the
first element failure with no partial result. -/
def All {S T : Type} (m : Mapper S T) : Mapper (List S) (List T)
  | [] => some []
  | x :: xs =>
      match m x with
      | some y =>
          match All m xs with
          | some ys => some (y :: ys)
          | none => none
      | none => none

/-- `func One[S any, T any](mappers ...Mapper[S, T]) Mapper[S, T]`
(tyson.go lines 56–66): try the mappers in order, returning the first
success; fail when none succeeds. -/
def One {S T : Type} : List (Mapper S T) → Mapper S T
  | [], _ => none
  | m :: ms, v =>
      match m v with
      | some w => some w
      | none => One ms v

/-- `type Node[T any] interface` with its two implementations
`empty[T]` and `value[T]` (tyson.go lines 76–111), as a two-constructor
inductive. -/
inductive Node (T : Type) where
  | empty : Node T
  | value : T → Node T

/-- `func EmptyNode[T any]() Node[T]` (tyson.go line 90). -/
def EmptyNode (T : Type) : Node T := Node.empty

/-- `func ValueNode[T any](v T) Node[T]` (tyson.go line 95). -/
def ValueNode {T : Type} (v : T) : Node T := Node.value v

/-- `Value()` (tyson.go lines 101, 108): the contained value if present,
else the zero value of `T` (`*new(T)`), modeled by `default`. -/
def Node.Value {T : Type} [Inhabited T] : Node T → T
  | Node.empty => default
  | Node.value v => v

/-- `Empty()` (tyson.go lines 102, 109). -/
def Node.Empty {T : Type} : Node T → Bool
  | Node.empty => true
  | Node.value _ => false

/-- `Or(v T)` (tyson.go lines 103, 110): the contained value if present,
otherwise `v`. -/
def Node.Or {T : Type} : Node T → T → T
  | Node.empty, v => v
  | Node.value w, _ => w

/-- `OrGet(f func() T)` (tyson.go lines 104, 111): the contained value if
present, otherwise `f()`. -/
def Node.OrGet {T : Type} : Node T → (Unit → T) → T
  | Node.empty, f => f ()
  | Node.value w, _ => w

/-- The Go zero value of `any` is `nil`, which is also how `encoding/json`
decodes JSON `null`; so `JValue.null` is the default of `JValue`. -/
instance : Inhabited JValue := ⟨JValue.null⟩

/-- `func Map[S any, T any](n Node[S], m Mapper[S, T]) Node[T]` (tyson.go
lines 115–122): if `n` is nonempty and `m` succeeds on its value, a
nonempty node of the result; otherwise empty. -/
def Map {S T : Type} (n : Node S) (m : Mapper S T) : Node T :=
  match n with
  | Node.empty => Node.empty
  | Node.value v =>
      match m v with
      | some w => Node.value w
      | none => Node.empty

/-- `func (o Object) get(k string) Node[any]` (tyson.go lines 160–166). -/
def Object.get (o : Object) (k : String) : Node JValue :=
  match lookupKey o k with
  | some v => Node.value v
  | none => Node.empty

/-- `func (o Object) Get(keys ...string) Node[any]` (tyson.go
lines 140–158).  The Go `default` branch loops `n = Map(n.Value().get(keys[i]),
AsObject)` over all but the last key, breaking when `n` is empty; after a
break it returns `n.Value().get(keys[i])`, where `n.Value()` is the zero
value `nil` map, whose lookup always fails — i.e. `Node.empty`.  The loop
is rendered as structural recursion on the key list. -/
def Object.Get (o : Object) : List String → Node JValue
  | [] => ValueNode (JValue.obj o)
  | [k] => Object.get o k
  | k :: k2 :: rest =>
      match Map (Object.get o k) AsObject with
      | Node.value o2 => Object.Get o2 (k2 :: rest)
      | Node.empty => Object.get ([] : Object) k

/-- `func (o Object) Has(k string) bool` (tyson.go line 169). -/
def Object.Has (o : Object) (k : String) : Bool := (lookupKey o k).isSome

/-- `func (o Object) Set(k string, v any)` (tyson.go line 172): Go map
assignment `o[k] = v`, modeled as replace-or-append state passing. -/
def Object.Set (o : Object) (k : String) (v : JValue) : Object :=
  match o with
  | [] => [(k, v)]
  | (k', v') :: rest =>
      if k' == k then (k', v) :: rest else (k', v') :: Object.Set rest k v

/-- `func (o Object) Remove(k string)` (tyson.go line 175): Go
`delete(o, k)`, modeled as state passing. -/
def Object.Remove (o : Object) (k : String) : Object :=
  match o with
  | [] => []
  | (k', v') :: rest =>
      if k' == k then rest else (k', v') :: Object.Remove rest k

/-- `func (o Object) GetArray(keys ...string) Node[[]any]` (tyson.go
lines 185–187). -/
def Object.GetArray (o : Object) (keys : List String) : Node (List JValue) :=
  Map (Object.Get o keys) AsArray

/-- `func (o Object) GetBool(keys ...string) Node[bool]` (tyson.go
lines 195–197). -/
def Object.GetBool (o : Object) (keys : List String) : Node Bool :=
  Map (Object.Get o keys) AsBool

/-- `func (o Object) GetFloat(keys ...string) Node[float64]` (tyson.go
lines 205–207). -/
def Object.GetFloat (o : Object) (keys : List String) : Node ℚ :=
  Map (Object.Get o keys) AsFloat

/-- `func (o Object) GetInt(keys ...string) Node[int64]` (tyson.go
lines 215–217). -/
def Object.GetInt (o : Object) (keys : List String) : Node ℤ :=
  Map (Object.GetFloat o keys) AsInt

/-- `func (o Object) GetObject(keys ...string) Node[Object]` (tyson.go
lines 225–227). -/
def Object.GetObject (o : Object) (keys : List String) : Node Object :=
  Map (Object.Get o keys) AsObject

/-- `func (o Object) GetString(keys ...string) Node[string]` (tyson.go
lines 235–237). -/
def Object.GetString (o : Object) (keys : List String) : Node String :=
  Map (Object.Get o keys) AsString

/-- `func (o Object) GetArrays(keys ...string) Node[[][]any]` (tyson.go
lines 247–249). -/
def Object.GetArrays (o : Object) (keys : List String) : Node (List (List JValue)) :=
  Map (Object.GetArray o keys) (All AsArray)

/-- `func (o Object) GetBools(keys ...string) Node[[]bool]` (tyson.go
lines 257–259). -/
def Object.GetBools (o : Object) (keys : List String) : Node (List Bool) :=
  Map (Object.GetArray o keys) (All AsBool)

/-- `func (o Object) GetFloats(keys ...string) Node[[]float64]` (tyson.go
lines 267–269). -/
def Object.GetFloats (o : Object) (keys : List String) : Node (List ℚ) :=
  Map (Object.GetArray o keys) (All AsFloat)

/-- `func (o Object) GetInts(keys ...string) Node[[]int64]` (tyson.go
lines 277–279). -/
def Object.GetInts (o : Object) (keys : List String) : Node (List ℤ) :=
  Map (Object.GetFloats o keys) (All AsInt)

/-- `func (o Object) GetObjects(keys ...string) Node[[]Object]` (tyson.go
lines 287–289). -/
def Object.GetObjects (o : Object) (keys : List String) : Node (List Object) :=
  Map (Object.GetArray o keys) (All AsObject)

/-- `func (o Object) GetStrings(keys ...string) Node[[]string]` (tyson.go
lines 297–299). -/
def Object.GetStrings (o : Object) (keys : List String) : Node (List String) :=
  Map (Object.GetArray o keys) (All AsString)

/-! ## Specification-side definitions

These follow the spec's words, to be compared with the definitions above
(which follow the source). -/

/-- Wrap an optional value as a `Node`: `some v` becomes a nonempty node,
`none` the empty node. -/
def Node.ofOption {T : Type} : Option T → Node T
  | some v => Node.value v
  | none => Node.empty

/-- The spec's "value reachable at the end of K": zero keys reach the
tree itself; the last key is looked up in the mapping reached so far;
every earlier key must be present and its value must be a mapping. -/
def reach (o : Object) : List String → Option JValue
  | [] => some (JValue.obj o)
  | [k] => lookupKey o k
  | k :: k2 :: rest =>
      match lookupKey o k with
      | some (JValue.obj o2) => reach o2 (k2 :: rest)
      | _ => none

/-- The spec's "at some step a key is absent or an intermediate value
fails to coerce to a mapping". -/
def pathBroken (o : Object) : List String → Bool
  | [] => false
  | [k] => (lookupKey o k).isNone
  | k :: k2 :: rest =>
      match lookupKey o k with
      | some (JValue.obj o2) => pathBroken o2 (k2 :: rest)
      | _ => true

/-- Sequential composition of two coercions: apply the first, then the
second to its output; fail if either fails. -/
def compM {S T U : Type} (m1 : Mapper S T) (m2 : Mapper T U) : Mapper S U := fun v =>
  match m1 v with
  | some w => m2 w
  | none => none

/-! ## Instrumented getters for the read-only (frame) property

Each Go map primitive the package uses — a read `o[k]`, an assignment
`o[k] = v`, a deletion `delete(o, k)` — is recorded in a trace alongside
the computation.  `applyOp` gives the effect of each primitive on the
map, and a function is read-only exactly when replaying its trace leaves
every map unchanged. -/

/-- The Go map primitives appearing in tyson.go: lookup, assignment,
deletion. -/
inductive MapOp where
  | read : String → MapOp
  | write : String → JValue → MapOp
  | del : String → MapOp

/-- Whether a map primitive is a lookup. -/
def MapOp.isRead : MapOp → Bool
  | MapOp.read _ => true
  | _ => false

/-- Effect of one map primitive on an `Object`: a lookup leaves the map
unchanged, an assignment replaces or appends, a deletion removes. -/
def applyOp (o : Object) : MapOp → Object
  | MapOp.read _ => o
  | MapOp.write k v => Object.Set o k v
  | MapOp.del k => Object.Remove o k

/-- `Object.get` with its trace: one map read. -/
def Object.getTr (o : Object) (k : String) : Node JValue × List MapOp :=
  (Object.get o k, [MapOp.read k])

/-- `Object.Get` with its trace.  In the Go `default` branch, when the
descent breaks at key `keys[i]` the final `n.Value().get(keys[i])` still
performs one read of `keys[i]` (on the `nil` map). -/
def Object.GetTr (o : Object) : List String → Node JValue × List MapOp
  | [] => (ValueNode (JValue.obj o), [])
  | [k] => Object.getTr o k
  | k :: k2 :: rest =>
      match Map (Object.getTr o k).1 AsObject with
      | Node.value o2 =>
          (((Object.GetTr o2 (k2 :: rest))).1,
            (Object.getTr o k).2 ++ (Object.GetTr o2 (k2 :: rest)).2)
      | Node.empty =>
          ((Object.getTr ([] : Object) k).1,
            (Object.getTr o k).2 ++ (Object.getTr ([] : Object) k).2)

/-- `Object.GetArray` with its trace: `Map` performs no map primitive. -/
def Object.GetArrayTr (o : Object) (keys : List String) : Node (List JValue) × List MapOp :=
  (Map (Object.GetTr o keys).1 AsArray, (Object.GetTr o keys).2)

/-- `Object.GetBool` with its trace. -/
def Object.GetBoolTr (o : Object) (keys : List String) : Node Bool × List MapOp :=
  (Map (Object.GetTr o keys).1 AsBool, (Object.GetTr o keys).2)

/-- `Object.GetFloat` with its trace. -/
def Object.GetFloatTr (o : Object) (keys : List String) : Node ℚ × List MapOp :=
  (Map (Object.GetTr o keys).1 AsFloat, (Object.GetTr o keys).2)

/-- `Object.GetInt` with its trace. -/
def Object.GetIntTr (o : Object) (keys : List String) : Node ℤ × List MapOp :=
  (Map (Object.GetFloatTr o keys).1 AsInt, (Object.GetFloatTr o keys).2)

/-- `Object.GetObject` with its trace. -/
def Object.GetObjectTr (o : Object) (keys : List String) : Node Object × List MapOp :=
  (Map (Object.GetTr o keys).1 AsObject, (Object.GetTr o keys).2)

/-- `Object.GetString` with its trace. -/
def Object.GetStringTr (o : Object) (keys : List String) : Node String × List MapOp :=
  (Map (Object.GetTr o keys).1 AsString, (Object.GetTr o keys).2)

/-- `Object.GetArrays` with its trace. -/
def Object.GetArraysTr (o : Object) (keys : List String) :
    Node (List (List JValue)) × List MapOp :=
  (Map (Object.GetArrayTr o keys).1 (All AsArray), (Object.GetArrayTr o keys).2)

/-- `Object.GetBools` with its trace. -/
def Object.GetBoolsTr (o : Object) (keys : List String) : Node (List Bool) × List MapOp :=
  (Map (Object.GetArrayTr o keys).1 (All AsBool), (Object.GetArrayTr o keys).2)

/-- `Object.GetFloats` with its trace. -/
def Object.GetFloatsTr (o : Object) (keys : List String) : Node (List ℚ) × List MapOp :=
  (Map (Object.GetArrayTr o keys).1 (All AsFloat), (Object.GetArrayTr o keys).2)

/-- `Object.GetInts` with its trace. -/
def Object.GetIntsTr (o : Object) (keys : List String) : Node (List ℤ) × List MapOp :=
  (Map (Object.GetFloatsTr o keys).1 (All AsInt), (Object.GetFloatsTr o keys).2)

/-- `Object.GetObjects` with its trace. -/
def Object.GetObjectsTr (o : Object) (keys : List String) : Node (List Object) × List MapOp :=
  (Map (Object.GetArrayTr o keys).1 (All AsObject), (Object.GetArrayTr o keys).2)

/-- `Object.GetStrings` with its trace. -/
def Object.GetStringsTr (o : Object) (keys : List String) : Node (List String) × List MapOp :=
  (Map (Object.GetArrayTr o keys).1 (All AsString), (Object.GetArrayTr o keys).2)

/-- `Object.Set` with its trace: one map assignment. -/
def Object.SetTr (o : Object) (k : String) (v : JValue) : Object × List MapOp :=
  (Object.Set o k v, [MapOp.write k v])

/-- `Object.Remove` with its trace: one map deletion. -/
def Object.RemoveTr (o : Object) (k : String) : Object × List MapOp :=
  (Object.Remove o k, [MapOp.del k])

/-! ## Concrete values used in the spec's scenarios -/

/-- The spec's scenario tree `{"foo": {"bar": "baz"}}`. -/
def fooTree : Object := [("foo", JValue.obj [("bar", JValue.str "baz")])]

/-- The exact value of the IEEE-754 double closest to 42.01
(`5912381885807329 / 2^47`), which is not an integer. -/
def q42_01 : ℚ := (5912381885807329 : ℚ) / (140737488355328 : ℚ)

/-! ## Helper lemmas -/

/-- `Object.get` returns the looked-up value as an optional node. -/
lemma get_eq_ofOption (o : Object) (k : String) :
    Object.get o k = Node.ofOption (lookupKey o k) := by
  rw [Object.get]
  cases lookupKey o k <;> rfl

/-- Traversal computes exactly the spec's reachable value. -/
lemma Get_eq_reach (keys : List String) :
    ∀ o : Object, Object.Get o keys = Node.ofOption (reach o keys) := by
  induction keys with
  | nil => intro o; rfl
  | cons k rest ih =>
      intro o
      cases rest with
      | nil =>
          rw [Object.Get, reach, get_eq_ofOption]
      | cons k2 rest2 =>
          rw [Object.Get, reach, get_eq_ofOption]
          cases hlk : lookupKey o k with
          | none => rfl
          | some v => cases v <;> simp [Node.ofOption, Map, AsObject, ih, Object.get, lookupKey]

/-- The spec's broken-path predicate holds exactly when no value is
reachable. -/
lemma pathBroken_iff_reach (keys : List String) :
    ∀ o : Object, pathBroken o keys = true ↔ reach o keys = none := by
  induction keys with
  | nil => intro o; simp [pathBroken, reach]
  | cons k rest ih =>
      intro o
      cases rest with
      | nil => simp [pathBroken, reach, Option.isNone_iff_eq_none]
      | cons k2 rest2 =>
          rw [pathBroken, reach]
          cases hlk : lookupKey o k with
          | none => simp
          | some v => cases v <;> simp [ih]

/-- Two nested `Map`s collapse to one `Map` by the composed coercion. -/
lemma Map_Map {S T U : Type} (n : Node S) (m1 : Mapper S T) (m2 : Mapper T U) :
    Map (Map n m1) m2 = Map n (compM m1 m2) := by
  cases n with
  | empty => rfl
  | value v =>
      rw [Map, Map, compM]
      cases m1 v with
      | none => rfl
      | some w => rw [Map]

/-- `Map` only depends on the coercion's values. -/
lemma Map_congr {S T : Type} (n : Node S) (m1 m2 : Mapper S T)
    (h : ∀ v, m1 v = m2 v) : Map n m1 = Map n m2 := by
  cases n with
  | empty => rfl
  | value v => rw [Map, Map, h]

/-- Lifting a composed coercion is composing the lifted coercions. -/
lemma All_compM {S T U : Type} (m1 : Mapper S T) (m2 : Mapper T U) :
    ∀ v : List S, All (compM m1 m2) v = compM (All m1) (All m2) v := by
  intro v
  induction v with
  | nil => rfl
  | cons x xs ih =>
      cases h1 : m1 x with
      | none => simp only [All, compM, h1]
      | some y =>
          cases h2 : All m1 xs with
          | none =>
              simp only [All, compM, h1, h2, ih]
              cases m2 y <;> rfl
          | some ys =>
              simp only [All, compM, h1, h2, ih]

/-- `All m` succeeds with `w` exactly when `m` relates the input to `w`
pointwise, in order. -/
lemma All_eq_some_iff {S T : Type} (m : Mapper S T) :
    ∀ (v : List S) (w : List T),
      All m v = some w ↔ List.Forall₂ (fun x y => m x = some y) v w := by
  intro v
  induction v with
  | nil =>
      intro w
      rw [All]
      cases w <;> simp
  | cons x xs ih =>
      intro w
      rw [All]
      cases h1 : m x with
      | none =>
          simp only [List.forall₂_cons_left_iff]
          constructor
          · intro h; cases h
          · rintro ⟨b, w', hb, _, rfl⟩
            rw [h1] at hb; cases hb
      | some y =>
          cases h2 : All m xs with
          | none =>
              simp only [List.forall₂_cons_left_iff]
              constructor
              · intro h; cases h
              · rintro ⟨b, w', hb, hw', rfl⟩
                rw [← ih] at hw'
                rw [h2] at hw'; cases hw'
          | some ys =>
              simp only [List.forall₂_cons_left_iff]
              constructor
              · intro h
                cases h
                exact ⟨y, ys, h1, (ih ys).mp h2, rfl⟩
              · rintro ⟨b, w', hb, hw', rfl⟩
                rw [h1] at hb
                cases hb
                rw [← ih] at hw'
                rw [h2] at hw'
                cases hw'
                rfl

/-- `All m` fails exactly when `m` fails on some element. -/
lemma All_eq_none_iff {S T : Type} (m : Mapper S T) :
    ∀ v : List S, All m v = none ↔ ∃ x ∈ v, m x = none := by
  intro v
  induction v with
  | nil => rw [All]; simp
  | cons x xs ih =>
      rw [All]
      cases h1 : m x with
      | none =>
          simp only [h1]
          constructor
          · intro _; exact ⟨x, List.mem_cons_self x xs, h1⟩
          · intro _; trivial
      | some y =>
          cases h2 : All m xs with
          | none =>
              simp only [h1, h2]
              constructor
              · intro _
                obtain ⟨z, hz, hzn⟩ := ih.mp h2
                exact ⟨z, List.mem_cons_of_mem _ hz, hzn⟩
              · intro _; trivial
          | some ys =>
              simp only [h1, h2]
              constructor
              · intro h; exact Option.noConfusion h
              · rintro ⟨z, hz, hzn⟩
                rcases List.mem_cons.mp hz with rfl | hz'
                · rw [hzn] at h1; exact Option.noConfusion h1
                · rw [ih.mpr ⟨z, hz', hzn⟩] at h2; exact Option.noConfusion h2

/-- `One` fails exactly when every listed coercion fails. -/
lemma One_eq_none_iff {S T : Type} :
    ∀ (ms : List (Mapper S T)) (v : S), One ms v = none ↔ ∀ m ∈ ms, m v = none := by
  intro ms v
  induction ms with
  | nil => simp [One]
  | cons m ms ih =>
      rw [One]
      cases h1 : m v with
      | none => simp [h1, ih]
      | some w => simp [h1]

/-- First-listed-wins: when every coercion before `m` fails and `m`
succeeds, `One` returns `m`'s result, whatever follows. -/
lemma One_append_first {S T : Type} (ms1 : List (Mapper S T)) (m : Mapper S T)
    (ms2 : List (Mapper S T)) (v : S) (w : T)
    (hfail : ∀ m' ∈ ms1, m' v = none) (hm : m v = some w) :
    One (ms1 ++ m :: ms2) v = some w := by
  induction ms1 with
  | nil => rw [List.nil_append, One, hm]
  | cons m0 ms1' ih =>
      rw [List.cons_append, One, hfail m0 (by simp)]
      exact ih fun m' hm' => hfail m' (by simp [hm'])

/-- Replaying a trace of reads leaves any map unchanged. -/
lemma foldl_reads_id :
    ∀ (t : List MapOp) (o : Object), t.all MapOp.isRead = true → t.foldl applyOp o = o := by
  intro t
  induction t with
  | nil => intro o _; rfl
  | cons op t' ih =>
      intro o h
      rw [List.all_cons, Bool.and_eq_true] at h
      cases op with
      | read k =>
          rw [List.foldl_cons]
          exact ih o h.2
      | write k v => cases h.1
      | del k => cases h.1

/-- The instrumented traversal computes the same node as `Object.Get`. -/
lemma GetTr_fst (keys : List String) :
    ∀ o : Object, (Object.GetTr o keys).1 = Object.Get o keys := by
  induction keys with
  | nil => intro o; rfl
  | cons k rest ih =>
      intro o
      cases rest with
      | nil => rfl
      | cons k2 rest2 =>
          rw [Object.GetTr, Object.Get]
          cases h : Map (Object.get o k) AsObject with
          | empty => simp only [Object.getTr, h]
          | value o2 => simp only [Object.getTr, h, ih]

/-- The traversal trace consists of map reads only. -/
lemma GetTr_reads (keys : List String) :
    ∀ o : Object, (Object.GetTr o keys).2.all MapOp.isRead = true := by
  induction keys with
  | nil => intro o; rfl
  | cons k rest ih =>
      intro o
      cases rest with
      | nil => rfl
      | cons k2 rest2 =>
          rw [Object.GetTr]
          cases h : Map (Object.getTr o k).1 AsObject with
          | empty => rfl
          | value o2 =>
              simp only [Object.getTr, List.all_append, List.all_cons, List.all_nil,
                MapOp.isRead, Bool.and_true, Bool.true_and, ih]

/-- Truncation of a nonnegative rational sits below it. -/
lemma truncQ_le_self {x : ℚ} (hx : 0 ≤ x) : (truncQ x : ℚ) ≤ x := by
  rw [truncQ, if_pos hx]
  exact Int.floor_le x

/-- Truncation of a negative rational sits above it. -/
lemma self_le_truncQ {x : ℚ} (hx : ¬0 ≤ x) : x ≤ (truncQ x : ℚ) := by
  rw [truncQ, if_neg hx]
  exact Int.le_ceil x

/-- Inside the `int64` range, Go's conversion is exact truncation. -/
lemma int64Conv_in_range {x : ℚ} (h1 : -(2 ^ 63) ≤ truncQ x) (h2 : truncQ x < 2 ^ 63) :
    int64Conv x = truncQ x := by
  rw [int64Conv, if_neg]
  rintro (h | h)
  · linarith
  · linarith

/-- Outside the `int64` range the conversion yields `-2^63`, which never
equals the input, so the round-trip check fails. -/
lemma AsInt_overflow {x : ℚ} (h : truncQ x < -(2 ^ 63) ∨ (2 ^ 63 : ℤ) < truncQ x) :
    AsInt x = none := by
  have hconv : int64Conv x = -(2 ^ 63) := by
    rw [int64Conv, if_pos]
    rcases h with h | h
    · exact Or.inl h
    · exact Or.inr h.le
  simp only [AsInt, hconv]
  rw [if_neg]
  intro heq
  rcases h with h | h
  · by_cases hx : 0 ≤ x
    · have h0 : (0 : ℤ) ≤ truncQ x := by
        rw [truncQ, if_pos hx]
        exact Int.floor_nonneg.mpr hx
      have hp : (0 : ℤ) < 2 ^ 63 := by positivity
      linarith
    · have hxle : x ≤ (truncQ x : ℚ) := self_le_truncQ hx
      have hlt : (truncQ x : ℚ) < ((-(2 ^ 63) : ℤ) : ℚ) := by exact_mod_cast h
      have : x < x := lt_of_le_of_lt hxle (heq ▸ hlt)
      exact lt_irrefl _ this
  · by_cases hx : 0 ≤ x
    · have hle : (truncQ x : ℚ) ≤ x := truncQ_le_self hx
      have hgt : ((2 ^ 63 : ℤ) : ℚ) < (truncQ x : ℚ) := by exact_mod_cast h
      have hx2 : ((2 ^ 63 : ℤ) : ℚ) < x := lt_of_lt_of_le hgt hle
      rw [← heq] at hx2
      have hlt : ((2 : ℤ) ^ 63) < -(2 ^ 63) := by exact_mod_cast hx2
      have hp : (0 : ℤ) < 2 ^ 63 := by positivity
      linarith
    · have hc : truncQ x ≤ 0 := by
        rw [truncQ, if_neg hx]
        exact Int.ceil_le.mpr (by exact_mod_cast le_of_not_le hx)
      have hp : (0 : ℤ) < 2 ^ 63 := by positivity
      linarith

/-! ## Claim theorems -/

/-- C1: for every Object `o` and key sequence `keys`, `Object.Get` returns
an empty node exactly when at some step a key is absent or an intermediate
value fails to coerce to a mapping; otherwise it returns a nonempty node
holding the value reachable at the end of the keys.  In particular, on the
tree `{"foo": {"bar": "baz"}}` the keys `["foo","bar","baz"]` yield an
empty node, because traversal cannot descend into the string `"baz"`. -/
theorem spec_c1_traversal :
    (∀ (o : Object) (keys : List String),
        Object.Get o keys = Node.ofOption (reach o keys) ∧
        (Object.Get o keys = Node.empty ↔ pathBroken o keys = true)) ∧
    Object.Get fooTree ["foo", "bar", "baz"] = Node.empty := by
  refine ⟨fun o keys => ⟨Get_eq_reach keys o, ?_⟩, rfl⟩
  rw [Get_eq_reach keys o, pathBroken_iff_reach keys o]
  cases reach o keys <;> simp [Node.ofOption]

/-- C2 counterexample: at the double `2^64` (an exact integral double,
Go literal `1 << 64` or `1.8446744073709552e19`), the claim's
truncate-then-widen round trip holds — truncation is the identity on
this integer and widens back exactly — yet the program's `AsInt` fails,
because `int64(2^64)` overflows (gc/amd64 yields `-2^63`, and
`float64(w)` has magnitude at most `2^63` for every `int64` `w`).  So
"AsInt succeeds iff `float(truncate(x)) == x`" is false at `x = 2^64`. -/
theorem spec_c2_asInt_counterexample :
    AsInt (18446744073709551616 : ℚ) = none ∧
    (truncQ (18446744073709551616 : ℚ) : ℚ) = (18446744073709551616 : ℚ) :=
  ⟨by decide, by decide⟩

/-- C2 amended: for every float64 input `x` whose truncation lies in the
`int64` range `[-2^63, 2^63)`, `AsInt` succeeds if and only if `x` is
unchanged by the truncate-then-widen round trip, in which case it yields
`truncate(x)`; when the truncation lies strictly outside `[-2^63, 2^63]`
the `int64` conversion overflows and `AsInt` fails (here under the
embedded gc/amd64 overflow result; the failure holds on every conforming
implementation, since `float64` of any `int64` has magnitude at most
`2^63 < |x|`).  In particular `AsInt(42.0)` succeeds with value `42`,
`AsInt(42.01)` fails, and `AsInt(-7.0)` succeeds with value `-7`. -/
theorem spec_c2_asInt_amended :
    (∀ x : ℚ, -(2 ^ 63) ≤ truncQ x → truncQ x < 2 ^ 63 →
        ((AsInt x = some (truncQ x) ↔ (truncQ x : ℚ) = x) ∧
         (AsInt x = none ↔ (truncQ x : ℚ) ≠ x))) ∧
    (∀ x : ℚ, truncQ x < -(2 ^ 63) ∨ (2 ^ 63 : ℤ) < truncQ x → AsInt x = none) ∧
    AsInt 42 = some 42 ∧ AsInt q42_01 = none ∧ AsInt (-7) = some (-7) := by
  refine ⟨?_, fun x h => AsInt_overflow h, by decide, ?_, by decide⟩
  · intro x h1 h2
    have hconv := int64Conv_in_range h1 h2
    by_cases heq : ((truncQ x : ℚ) = x) <;> simp [AsInt, hconv, heq]
  · have htr : truncQ q42_01 = 42 := by
      rw [truncQ, if_pos (by rw [q42_01]; norm_num : (0 : ℚ) ≤ q42_01)]
      rw [q42_01]; norm_num
    have hne : (truncQ q42_01 : ℚ) ≠ q42_01 := by
      rw [htr, q42_01]; norm_num
    have hconv := int64Conv_in_range (by rw [htr]; decide) (by rw [htr]; decide)
    simp [AsInt, hconv, hne]

/-- Witness for the amended C2: the in-range case applied at `42.0`
(round trip holds, so `AsInt` succeeds with the truncation) and the
overflow case applied at the double `2^64` (conversion overflows, so
`AsInt` fails). -/
theorem spec_c2_asInt_amended_witness :
    AsInt (42 : ℚ) = some (truncQ (42 : ℚ)) ∧
    AsInt (18446744073709551616 : ℚ) = none :=
  ⟨(spec_c2_asInt_amended.1 42 (by decide) (by decide)).1.mpr (by decide),
   spec_c2_asInt_amended.2.1 (18446744073709551616 : ℚ) (Or.inr (by decide))⟩

/-- C3: every typed accessor is the stated composition of traversal and
coercion: scalar getters are `Map` of `Get` with the scalar coercion,
`GetInt` composes the number accessor with the integral coercion, and
each array getter is `Map` of `Map Get AsArray` with the lifted element
coercion (for `GetInts`, the element coercion is number-then-integral). -/
theorem spec_c3_accessors :
    ∀ (o : Object) (keys : List String),
      Object.GetArray o keys = Map (Object.Get o keys) AsArray ∧
      Object.GetBool o keys = Map (Object.Get o keys) AsBool ∧
      Object.GetFloat o keys = Map (Object.Get o keys) AsFloat ∧
      Object.GetObject o keys = Map (Object.Get o keys) AsObject ∧
      Object.GetString o keys = Map (Object.Get o keys) AsString ∧
      Object.GetInt o keys = Map (Map (Object.Get o keys) AsFloat) AsInt ∧
      Object.GetArrays o keys = Map (Map (Object.Get o keys) AsArray) (All AsArray) ∧
      Object.GetBools o keys = Map (Map (Object.Get o keys) AsArray) (All AsBool) ∧
      Object.GetFloats o keys = Map (Map (Object.Get o keys) AsArray) (All AsFloat) ∧
      Object.GetObjects o keys = Map (Map (Object.Get o keys) AsArray) (All AsObject) ∧
      Object.GetStrings o keys = Map (Map (Object.Get o keys) AsArray) (All AsString) ∧
      Object.GetInts o keys = Map (Map (Object.Get o keys) AsArray) (All (compM AsFloat AsInt)) := by
  intro o keys
  refine ⟨rfl, rfl, rfl, rfl, rfl, rfl, rfl, rfl, rfl, rfl, rfl, ?_⟩
  rw [Object.GetInts, Object.GetFloats, Map_Map]
  exact Map_congr _ _ _ fun v => (All_compM AsFloat AsInt v).symm

/-- C4: the lifted coercion `All m` succeeds exactly when `m` succeeds on
every element, in which case the output is the element-wise image in
source order (so of the same length); it fails exactly when `m` fails on
some element, with no partial result. -/
theorem spec_c4_all :
    ∀ (S T : Type) (m : Mapper S T) (v : List S),
      (∀ w : List T, All m v = some w ↔ List.Forall₂ (fun x y => m x = some y) v w) ∧
      (All m v = none ↔ ∃ x ∈ v, m x = none) :=
  fun _ _ m v => ⟨All_eq_some_iff m v, All_eq_none_iff m v⟩

/-- C5: `One` tries the coercions in order and returns the first success
— whatever earlier failures preceded it and whatever follows it — and
fails exactly when all fail; concretely, when the first of two succeeds,
its result wins even if the second would also succeed, and when only the
second succeeds, its result is returned. -/
theorem spec_c5_one :
    (∀ (S T : Type) (ms1 : List (Mapper S T)) (m : Mapper S T) (ms2 : List (Mapper S T))
        (v : S) (w : T), (∀ m' ∈ ms1, m' v = none) → m v = some w →
        One (ms1 ++ m :: ms2) v = some w) ∧
    (∀ (S T : Type) (ms : List (Mapper S T)) (v : S),
        One ms v = none ↔ ∀ m ∈ ms, m v = none) ∧
    One [fun n : ℕ => some (n + 1), fun n : ℕ => some (n + 2)] 0 = some 1 ∧
    One [fun _ : ℕ => (none : Option ℕ), fun n : ℕ => some (n + 2)] 0 = some 2 :=
  ⟨fun _ _ ms1 m ms2 v w hfail hm => One_append_first ms1 m ms2 v w hfail hm,
   fun _ _ ms v => One_eq_none_iff ms v, rfl, rfl⟩

/-- Witness for C5 at a concrete input: the first coercion fails, the
second succeeds, so `One` returns the second's result. -/
theorem spec_c5_one_witness :
    One [fun _ : ℕ => (none : Option ℕ), fun n : ℕ => some (n * 3)] 5 = some 15 :=
  spec_c5_one.1 ℕ ℕ [fun _ => none] (fun n => some (n * 3)) [] 5 15
    (by intro m' hm'
        rw [List.mem_singleton] at hm'
        subst hm'
        rfl)
    rfl

/-- C6: `Map n m` returns a nonempty node holding `m`'s output exactly
when `n` is nonempty and `m` succeeds on its value; when `n` is empty
(whatever the coercion) or `m` fails, the result is the empty node. -/
theorem spec_c6_map :
    (∀ (S T : Type) (m : Mapper S T), Map (Node.empty : Node S) m = (Node.empty : Node T)) ∧
    (∀ (S T : Type) (m : Mapper S T) (v : S) (w : T),
        m v = some w → Map (Node.value v) m = Node.value w) ∧
    (∀ (S T : Type) (m : Mapper S T) (v : S),
        m v = none → Map (Node.value v) m = (Node.empty : Node T)) := by
  refine ⟨fun _ _ _ => rfl, ?_, ?_⟩
  · intro S T m v w h
    rw [Map, h]
  · intro S T m v h
    rw [Map, h]

/-- Witness for C6 at concrete inputs: a succeeding coercion on a
nonempty node, a failing coercion on a nonempty node, and an empty
source. -/
theorem spec_c6_map_witness :
    Map (Node.value (JValue.bool true)) AsBool = Node.value true ∧
    Map (Node.value JValue.null) AsBool = Node.empty ∧
    Map (Node.empty : Node JValue) AsBool = (Node.empty : Node Bool) :=
  ⟨spec_c6_map.2.1 JValue Bool AsBool (JValue.bool true) true rfl,
   spec_c6_map.2.2 JValue Bool AsBool JValue.null rfl,
   spec_c6_map.1 JValue Bool AsBool⟩

/-- C7: `Value` returns the contained value, or the type's zero value
when empty (Go zero values: `false`, `0`, `""`, `nil`); `Or` returns the
contained value or the eager default; `OrGet` returns the contained value
— independently of the supplier — or the supplier's result when empty. -/
theorem spec_c7_node_ops :
    (∀ (T : Type) [Inhabited T] (v d : T) (f g : Unit → T),
        (Node.value v).Value = v ∧
        (Node.empty : Node T).Value = default ∧
        (Node.value v).Or d = v ∧
        (Node.empty : Node T).Or d = d ∧
        (Node.value v).OrGet f = v ∧
        (Node.empty : Node T).OrGet f = f () ∧
        (Node.value v).OrGet f = (Node.value v).OrGet g) ∧
    (Node.empty : Node Bool).Value = false ∧
    (Node.empty : Node ℚ).Value = 0 ∧
    (Node.empty : Node ℤ).Value = 0 ∧
    (Node.empty : Node String).Value = "" ∧
    (Node.empty : Node (List JValue)).Value = [] ∧
    (Node.empty : Node Object).Value = [] ∧
    (Node.empty : Node JValue).Value = JValue.null :=
  ⟨fun _ _ _ _ _ _ => ⟨rfl, rfl, rfl, rfl, rfl, rfl, rfl⟩,
   rfl, rfl, rfl, rfl, rfl, rfl, rfl⟩

/-- C8: traversal with zero keys always returns a nonempty node whose
contained value is the object itself. -/
theorem spec_c8_zero_keys :
    ∀ o : Object,
      Object.Get o [] = Node.value (JValue.obj o) ∧
      (Object.Get o []).Empty = false ∧
      (Object.Get o []).Value = JValue.obj o :=
  fun _ => ⟨rfl, rfl, rfl⟩

/-- C9: `Get` and every typed getter perform only map reads, so replaying
their traces leaves any object unchanged — while `Set` and `Remove` do
mutate, shown at concrete inputs. -/
theorem spec_c9_read_only :
    (∀ (o : Object) (keys : List String) (p : Object),
        (Object.GetTr o keys).1 = Object.Get o keys ∧
        (Object.GetTr o keys).2.all MapOp.isRead = true ∧
        (Object.GetTr o keys).2.foldl applyOp p = p ∧
        ((Object.GetArrayTr o keys).1 = Object.GetArray o keys ∧
          (Object.GetArrayTr o keys).2 = (Object.GetTr o keys).2) ∧
        ((Object.GetBoolTr o keys).1 = Object.GetBool o keys ∧
          (Object.GetBoolTr o keys).2 = (Object.GetTr o keys).2) ∧
        ((Object.GetFloatTr o keys).1 = Object.GetFloat o keys ∧
          (Object.GetFloatTr o keys).2 = (Object.GetTr o keys).2) ∧
        ((Object.GetIntTr o keys).1 = Object.GetInt o keys ∧
          (Object.GetIntTr o keys).2 = (Object.GetTr o keys).2) ∧
        ((Object.GetObjectTr o keys).1 = Object.GetObject o keys ∧
          (Object.GetObjectTr o keys).2 = (Object.GetTr o keys).2) ∧
        ((Object.GetStringTr o keys).1 = Object.GetString o keys ∧
          (Object.GetStringTr o keys).2 = (Object.GetTr o keys).2) ∧
        ((Object.GetArraysTr o keys).1 = Object.GetArrays o keys ∧
          (Object.GetArraysTr o keys).2 = (Object.GetTr o keys).2) ∧
        ((Object.GetBoolsTr o keys).1 = Object.GetBools o keys ∧
          (Object.GetBoolsTr o keys).2 = (Object.GetTr o keys).2) ∧
        ((Object.GetFloatsTr o keys).1 = Object.GetFloats o keys ∧
          (Object.GetFloatsTr o keys).2 = (Object.GetTr o keys).2) ∧
        ((Object.GetIntsTr o keys).1 = Object.GetInts o keys ∧
          (Object.GetIntsTr o keys).2 = (Object.GetTr o keys).2) ∧
        ((Object.GetObjectsTr o keys).1 = Object.GetObjects o keys ∧
          (Object.GetObjectsTr o keys).2 = (Object.GetTr o keys).2) ∧
        ((Object.GetStringsTr o keys).1 = Object.GetStrings o keys ∧
          (Object.GetStringsTr o keys).2 = (Object.GetTr o keys).2)) ∧
    (Object.SetTr ([] : Object) "a" JValue.null).2.foldl applyOp ([] : Object) ≠ ([] : Object) ∧
    (Object.RemoveTr [("a", JValue.null)] "a").2.foldl applyOp [("a", JValue.null)]
      ≠ ([("a", JValue.null)] : Object) := by
  refine ⟨?_, fun h => List.noConfusion h, fun h => List.noConfusion h⟩
  intro o keys p
  refine ⟨GetTr_fst keys o, GetTr_reads keys o,
    foldl_reads_id _ p (GetTr_reads keys o), ?_, ?_, ?_, ?_, ?_, ?_, ?_, ?_, ?_, ?_, ?_, ?_⟩
  all_goals constructor
  all_goals
    simp only [Object.GetArrayTr, Object.GetBoolTr, Object.GetFloatTr, Object.GetIntTr,
      Object.GetObjectTr, Object.GetStringTr, Object.GetArraysTr, Object.GetBoolsTr,
      Object.GetFloatsTr, Object.GetIntsTr, Object.GetObjectsTr, Object.GetStringsTr,
      GetTr_fst]
  all_goals rfl

/-- C10: a key present with a null value yields a nonempty node
containing null; the one-key lookup is empty exactly when the key is
absent, never because the stored value is null. -/
theorem spec_c10_null_present :
    ∀ (o : Object) (k : String),
      (lookupKey o k = some JValue.null → Object.Get o [k] = Node.value JValue.null) ∧
      (Object.Get o [k] = Node.empty ↔ lookupKey o k = none) := by
  intro o k
  have hGet : Object.Get o [k] = Object.get o k := rfl
  constructor
  · intro h
    rw [hGet, get_eq_ofOption, h]
    rfl
  · rw [hGet, get_eq_ofOption]
    cases lookupKey o k <;> simp [Node.ofOption]

/-- Witness for C10: on `{"a": null}`, `Get` with key `"a"` returns a
nonempty node containing null. -/
theorem spec_c10_null_present_witness :
    Object.Get [("a", JValue.null)] ["a"] = Node.value JValue.null :=
  (spec_c10_null_present [("a", JValue.null)] "a").1 rfl

end Tyson
